import Mathlib

/-!
Verification development for the STARK proving pipeline and the EVM CPU
stack-constraint module of this repository.

The two source files embedded here are `starky/src/prover.rs` (the `prove`
driver and `compute_quotient_polys`) and `evm/src/cpu/stack.rs` (the packed
and circuit constraint-evaluation paths for stack behaviors).  Library
machinery that those files call but that is defined elsewhere in the
repository (polynomial trim/pad/chunks, the Fiat-Shamir challenger, the
Merkle commitment oracle, the circuit-builder arithmetic gates, the CPU
column layout) is modelled from the specification; every such definition is
marked `Modelled from the spec:` in its doc comment.
-/

namespace EvmStack

/-- Kind of an emitted constraint: `basic` constraints hold on every row,
`transition` constraints are exempt on the last row
(`yield_constr.constraint` vs `yield_constr.constraint_transition`). -/
inductive CKind where
  | basic : CKind
  | transition : CKind
deriving DecidableEq, Repr

/-- Modelled from the spec: one general-purpose memory channel's columns of
the CPU table (`used`, `is_read`, the three address columns and the value
limbs), as read by `stack.rs` through `CpuColumnsView.mem_channels[i]`. -/
structure MemoryChannelView (F : Type) where
  used : F
  is_read : F
  addr_context : F
  addr_segment : F
  addr_virtual : F
  value : List F

/-- Modelled from the spec: the stack-specific general columns
`stack_inv` and `stack_inv_aux` reached via `lv.general.stack()`. -/
structure StackColumnsView (F : Type) where
  stack_inv : F
  stack_inv_aux : F

/-- Modelled from the spec: the slice of the CPU columns view used by
`stack.rs`: the context, the stack length, the general-purpose memory
channels (indexed), and the stack general columns. -/
structure CpuColumnsView (F : Type) where
  context : F
  stack_len : F
  mem_channels : Nat → MemoryChannelView F
  general_stack : StackColumnsView F

/-- The structure `StackBehavior` from `evm/src/cpu/stack.rs`. -/
structure StackBehavior where
  num_pops : Nat
  pushes : Bool
  new_top_stack_channel : Option Nat
  disable_other_channels : Bool

variable {F : Type} [Field F]

/-- Modelled from the spec: the circuit-builder gate
`mul_sub_extension a b c`, computing `a * b - c`. -/
def mul_sub_extension (a b c : F) : F := a * b - c

/-- Modelled from the spec: the circuit-builder gate `sub_extension a b`,
computing `a - b`. -/
def sub_extension (a b : F) : F := a - b

/-- Modelled from the spec: the circuit-builder gate `mul_extension a b`,
computing `a * b`. -/
def mul_extension (a b : F) : F := a * b

/-- Modelled from the spec: the circuit-builder gate
`arithmetic_extension c0 c1 x y z`, computing `c0 * x * y + c1 * z`. -/
def arithmetic_extension (c0 c1 x y z : F) : F := c0 * (x * y) + c1 * z

/-- Modelled from the spec: the circuit-builder gate `constant_extension c`,
injecting the constant `c`. -/
def constant_extension (c : F) : F := c

/-- The constraints emitted by the `for i in 1..num_pops` loop body of
`eval_packed_one` at loop index `i` (reads of the popped stack elements). -/
def popReadConstraintsPacked (segStack : F) (lv : CpuColumnsView F)
    (filter : F) (i : Nat) : List (CKind × F) :=
  let channel := lv.mem_channels i
  [ (CKind.basic, filter * (channel.used - 1)),
    (CKind.basic, filter * (channel.is_read - 1)),
    (CKind.basic, filter * (channel.addr_context - lv.context)),
    (CKind.basic, filter * (channel.addr_segment - segStack)),
    (CKind.basic, filter * (channel.addr_virtual - (lv.stack_len - ((i + 1 : Nat) : F)))) ]

/-- The constraints emitted by the same loop body in
`eval_ext_circuit_one`, with the builder gates evaluated denotationally. -/
def popReadConstraintsCircuit (segStack : F) (lv : CpuColumnsView F)
    (filter : F) (i : Nat) : List (CKind × F) :=
  let channel := lv.mem_channels i
  [ (CKind.basic, mul_sub_extension filter channel.used filter),
    (CKind.basic, mul_sub_extension filter channel.is_read filter),
    (CKind.basic, mul_extension filter (sub_extension channel.addr_context lv.context)),
    (CKind.basic, arithmetic_extension 1 (-segStack) filter channel.addr_segment filter),
    (CKind.basic, arithmetic_extension 1 ((i + 1 : Nat) : F) filter
      (sub_extension channel.addr_virtual lv.stack_len) filter) ]

/-- The `if !stack_behavior.pushes` block of `eval_packed_one`: the extra
read of the new stack top plus the `stack_inv_aux` selector gadget. -/
def packedPopsNoPush (segStack : F) (lv nv : CpuColumnsView F)
    (filter : F) (num_pops : Nat) : List (CKind × F) :=
  let len_diff := lv.stack_len - ((num_pops : Nat) : F)
  let new_filter := len_diff * filter
  let channel := nv.mem_channels 0
  [ (CKind.transition, new_filter * (channel.used - 1)),
    (CKind.transition, new_filter * (channel.is_read - 1)),
    (CKind.transition, new_filter * (channel.addr_context - nv.context)),
    (CKind.transition, new_filter * (channel.addr_segment - segStack)),
    (CKind.transition, new_filter * (channel.addr_virtual - (nv.stack_len - 1))),
    (CKind.basic, filter *
      (len_diff * lv.general_stack.stack_inv - lv.general_stack.stack_inv_aux)),
    (CKind.transition,
      (filter * (lv.general_stack.stack_inv_aux - 1)) * channel.used) ]

/-- The corresponding block of `eval_ext_circuit_one`, gates evaluated. -/
def circuitPopsNoPush (segStack : F) (lv nv : CpuColumnsView F)
    (filter : F) (num_pops : Nat) : List (CKind × F) :=
  let target_num_pops := constant_extension (((num_pops : Nat) : F))
  let len_diff := sub_extension lv.stack_len target_num_pops
  let new_filter := mul_extension filter len_diff
  let channel := nv.mem_channels 0
  [ (CKind.transition, mul_sub_extension new_filter channel.used new_filter),
    (CKind.transition, mul_sub_extension new_filter channel.is_read new_filter),
    (CKind.transition,
      mul_extension new_filter (sub_extension channel.addr_context nv.context)),
    (CKind.transition,
      arithmetic_extension 1 (-segStack) new_filter channel.addr_segment new_filter),
    (CKind.transition,
      arithmetic_extension 1 1 new_filter
        (sub_extension channel.addr_virtual nv.stack_len) new_filter),
    (CKind.basic, mul_extension filter
      (sub_extension (mul_extension len_diff lv.general_stack.stack_inv)
        lv.general_stack.stack_inv_aux)),
    (CKind.transition,
      mul_extension
        (mul_sub_extension filter lv.general_stack.stack_inv_aux filter)
        channel.used) ]

/-- The `else if stack_behavior.pushes` block of `eval_packed_one`:
writing the previous stack top in the last channel, guarded by a
nonempty-stack selector. -/
def packedPushesOnly (ngp : Nat) (segStack : F) (lv : CpuColumnsView F)
    (filter : F) : List (CKind × F) :=
  let new_filter := lv.stack_len * filter
  let channel := lv.mem_channels (ngp - 1)
  [ (CKind.basic, new_filter * (channel.used - 1)),
    (CKind.basic, new_filter * channel.is_read),
    (CKind.basic, new_filter * (channel.addr_context - lv.context)),
    (CKind.basic, new_filter * (channel.addr_segment - segStack)),
    (CKind.basic, new_filter * (channel.addr_virtual - (lv.stack_len - 1))) ]
  ++
  ((List.zip channel.value (lv.mem_channels 0).value).map
    (fun p => (CKind.basic, new_filter * (p.1 - p.2))))
  ++
  [ (CKind.basic, filter *
      (lv.stack_len * lv.general_stack.stack_inv - lv.general_stack.stack_inv_aux)),
    (CKind.basic,
      (filter * (lv.general_stack.stack_inv_aux - 1)) * channel.used) ]

/-- The corresponding block of `eval_ext_circuit_one`, gates evaluated. -/
def circuitPushesOnly (ngp : Nat) (segStack : F) (lv : CpuColumnsView F)
    (filter : F) : List (CKind × F) :=
  let new_filter := mul_extension lv.stack_len filter
  let channel := lv.mem_channels (ngp - 1)
  [ (CKind.basic, mul_sub_extension new_filter channel.used new_filter),
    (CKind.basic, mul_extension new_filter channel.is_read),
    (CKind.basic, mul_extension new_filter (sub_extension channel.addr_context lv.context)),
    (CKind.basic,
      arithmetic_extension 1 (-segStack) new_filter channel.addr_segment new_filter),
    (CKind.basic,
      arithmetic_extension 1 1 new_filter
        (sub_extension channel.addr_virtual lv.stack_len) new_filter) ]
  ++
  ((List.zip channel.value (lv.mem_channels 0).value).map
    (fun p => (CKind.basic, mul_extension new_filter (sub_extension p.1 p.2))))
  ++
  [ (CKind.basic, mul_extension filter
      (sub_extension (mul_extension lv.stack_len lv.general_stack.stack_inv)
        lv.general_stack.stack_inv_aux)),
    (CKind.basic,
      mul_extension
        (mul_sub_extension filter lv.general_stack.stack_inv_aux filter)
        channel.used) ]

/-- The no-pop no-push block of `eval_packed_one`: the stack top must not
change. -/
def packedNoPopNoPush (lv nv : CpuColumnsView F) (filter : F) : List (CKind × F) :=
  (CKind.basic, filter * (nv.mem_channels 0).used)
  :: ((List.zip (lv.mem_channels 0).value (nv.mem_channels 0).value).map
      (fun p => (CKind.basic, filter * (p.1 - p.2))))

/-- The corresponding block of `eval_ext_circuit_one`, gates evaluated. -/
def circuitNoPopNoPush (lv nv : CpuColumnsView F) (filter : F) : List (CKind × F) :=
  (CKind.basic, mul_extension filter (nv.mem_channels 0).used)
  :: ((List.zip (lv.mem_channels 0).value (nv.mem_channels 0).value).map
      (fun p => (CKind.basic, mul_extension filter (sub_extension p.1 p.2))))

/-- The `new_top_stack_channel` block of `eval_packed_one`. -/
def packedNewTop (lv nv : CpuColumnsView F) (filter : F)
    (ntsc : Option Nat) : List (CKind × F) :=
  match ntsc with
  | some next_top_ch =>
      (List.zip (lv.mem_channels next_top_ch).value (nv.mem_channels 0).value).map
        (fun p => (CKind.transition, filter * (p.1 - p.2)))
  | none => []

/-- The corresponding block of `eval_ext_circuit_one`, gates evaluated. -/
def circuitNewTop (lv nv : CpuColumnsView F) (filter : F)
    (ntsc : Option Nat) : List (CKind × F) :=
  match ntsc with
  | some next_top_ch =>
      (List.zip (lv.mem_channels next_top_ch).value (nv.mem_channels 0).value).map
        (fun p => (CKind.transition, mul_extension filter (sub_extension p.1 p.2)))
  | none => []

/-- The unused-channels block of `eval_packed_one`. -/
def packedDisable (ngp : Nat) (lv : CpuColumnsView F) (filter : F)
    (num_pops : Nat) (pushes : Bool) : List (CKind × F) :=
  (List.range' (max 1 num_pops)
      ((ngp - (if pushes then 1 else 0)) - max 1 num_pops)).map
    (fun i => (CKind.basic, filter * (lv.mem_channels i).used))

/-- The corresponding block of `eval_ext_circuit_one`, gates evaluated. -/
def circuitDisable (ngp : Nat) (lv : CpuColumnsView F) (filter : F)
    (num_pops : Nat) (pushes : Bool) : List (CKind × F) :=
  (List.range' (max 1 num_pops)
      ((ngp - (if pushes then 1 else 0)) - max 1 num_pops)).map
    (fun i => (CKind.basic, mul_extension filter (lv.mem_channels i).used))

/-- The final new-stack-length transition constraint of `eval_packed_one`. -/
def packedStackLen (lv nv : CpuColumnsView F) (filter : F)
    (num_pops : Nat) (pushes : Bool) : List (CKind × F) :=
  [ (CKind.transition, filter *
      (nv.stack_len - (lv.stack_len - ((num_pops : Nat) : F)
        + (if pushes then (1 : F) else 0)))) ]

/-- The corresponding constraint of `eval_ext_circuit_one`, gates evaluated. -/
def circuitStackLen (lv nv : CpuColumnsView F) (filter : F)
    (num_pops : Nat) (pushes : Bool) : List (CKind × F) :=
  [ (CKind.transition,
      mul_extension filter
        (sub_extension nv.stack_len
          (sub_extension lv.stack_len
            (constant_extension (((num_pops : Nat) : F)
              - (if pushes then (1 : F) else 0)))))) ]

/-- The function `eval_packed_one` from `evm/src/cpu/stack.rs`, embedded as the ordered
list of (kind, value) pairs handed to the `ConstraintConsumer`.
`ngp` is `NUM_GP_CHANNELS` and `segStack` is
`F::from_canonical_u64(Segment::Stack as u64)`. -/
def eval_packed_one (ngp : Nat) (segStack : F) (lv nv : CpuColumnsView F)
    (filter : F) (sb : StackBehavior) : List (CKind × F) :=
  (if 0 < sb.num_pops then
    ((List.range' 1 (sb.num_pops - 1)).flatMap (popReadConstraintsPacked segStack lv filter))
    ++
    (if sb.pushes = false then packedPopsNoPush segStack lv nv filter sb.num_pops else [])
  else if sb.pushes then packedPushesOnly ngp segStack lv filter
  else packedNoPopNoPush lv nv filter)
  ++ packedNewTop lv nv filter sb.new_top_stack_channel
  ++ (if sb.disable_other_channels then
        packedDisable ngp lv filter sb.num_pops sb.pushes
      else [])
  ++ packedStackLen lv nv filter sb.num_pops sb.pushes

/-- The function `eval_ext_circuit_one` from `evm/src/cpu/stack.rs`, embedded as the
ordered list of (kind, value) pairs, with every builder gate call evaluated
under the field semantics of the gates. -/
def eval_ext_circuit_one (ngp : Nat) (segStack : F) (lv nv : CpuColumnsView F)
    (filter : F) (sb : StackBehavior) : List (CKind × F) :=
  (if 0 < sb.num_pops then
    ((List.range' 1 (sb.num_pops - 1)).flatMap (popReadConstraintsCircuit segStack lv filter))
    ++
    (if sb.pushes = false then circuitPopsNoPush segStack lv nv filter sb.num_pops else [])
  else if sb.pushes then circuitPushesOnly ngp segStack lv filter
  else circuitNoPopNoPush lv nv filter)
  ++ circuitNewTop lv nv filter sb.new_top_stack_channel
  ++ (if sb.disable_other_channels then
        circuitDisable ngp lv filter sb.num_pops sb.pushes
      else [])
  ++ circuitStackLen lv nv filter sb.num_pops sb.pushes

lemma popRead_agrees (segStack : F) (lv : CpuColumnsView F) (filter : F) (i : Nat) :
    popReadConstraintsPacked segStack lv filter i
      = popReadConstraintsCircuit segStack lv filter i := by
  simp only [popReadConstraintsPacked, popReadConstraintsCircuit, mul_sub_extension,
    sub_extension, mul_extension, arithmetic_extension, constant_extension,
    List.cons.injEq, Prod.mk.injEq, true_and, and_true]
  and_intros <;> first | rfl | ring

lemma popsNoPush_agrees (segStack : F) (lv nv : CpuColumnsView F) (filter : F) (n : Nat) :
    packedPopsNoPush segStack lv nv filter n = circuitPopsNoPush segStack lv nv filter n := by
  simp only [packedPopsNoPush, circuitPopsNoPush, mul_sub_extension,
    sub_extension, mul_extension, arithmetic_extension, constant_extension,
    List.cons.injEq, Prod.mk.injEq, true_and, and_true]
  and_intros <;> first | rfl | ring

lemma pushesOnly_agrees (ngp : Nat) (segStack : F) (lv : CpuColumnsView F) (filter : F) :
    packedPushesOnly ngp segStack lv filter = circuitPushesOnly ngp segStack lv filter := by
  simp only [packedPushesOnly, circuitPushesOnly, mul_sub_extension,
    sub_extension, mul_extension, arithmetic_extension, constant_extension,
    List.cons_append, List.nil_append, List.append_cancel_left_eq,
    List.cons.injEq, Prod.mk.injEq, true_and, and_true]
  and_intros <;> first | rfl | ring

lemma noPopNoPush_agrees (lv nv : CpuColumnsView F) (filter : F) :
    packedNoPopNoPush lv nv filter = circuitNoPopNoPush lv nv filter := by
  simp only [packedNoPopNoPush, circuitNoPopNoPush, mul_extension, sub_extension]

lemma newTop_agrees (lv nv : CpuColumnsView F) (filter : F) (ntsc : Option Nat) :
    packedNewTop lv nv filter ntsc = circuitNewTop lv nv filter ntsc := by
  cases ntsc <;>
    simp only [packedNewTop, circuitNewTop, mul_extension, sub_extension]

lemma disable_agrees (ngp : Nat) (lv : CpuColumnsView F) (filter : F)
    (n : Nat) (b : Bool) :
    packedDisable ngp lv filter n b = circuitDisable ngp lv filter n b := by
  simp only [packedDisable, circuitDisable, mul_extension]

lemma stackLen_agrees (lv nv : CpuColumnsView F) (filter : F) (n : Nat) (b : Bool) :
    packedStackLen lv nv filter n b = circuitStackLen lv nv filter n b := by
  simp only [packedStackLen, circuitStackLen, mul_extension, sub_extension,
    constant_extension, List.cons.injEq, Prod.mk.injEq, true_and, and_true]
  ring

/-- C6: for every pair of row views, every filter value and every
`StackBehavior`, the packed numeric path and the circuit-building path emit
algebraically identical constraint sequences: the same number of
constraints, in the same order, each computing the same polynomial in the
row values, with the same constraint-vs-transition classification. -/
theorem eval_packed_eval_ext_circuit_agree (ngp : Nat) (segStack : F)
    (lv nv : CpuColumnsView F) (filter : F) (sb : StackBehavior) :
    eval_packed_one ngp segStack lv nv filter sb
      = eval_ext_circuit_one ngp segStack lv nv filter sb := by
  have hpop : popReadConstraintsPacked segStack lv filter
      = popReadConstraintsCircuit segStack lv filter :=
    funext fun i => popRead_agrees segStack lv filter i
  unfold eval_packed_one eval_ext_circuit_one
  rw [hpop, popsNoPush_agrees, pushesOnly_agrees, noPopNoPush_agrees,
    newTop_agrees, disable_agrees, stackLen_agrees]

/-- C8: in the pops-without-push branch, `eval_packed_one` emits the
constraint `filter * (len_diff * stack_inv - stack_inv_aux)` and the
transition constraint `filter * (stack_inv_aux - 1) * used`, with
`len_diff = stack_len - num_pops`; consequently, whenever the filter is
active and the constraints hold, `stack_inv_aux ≠ 1` forces the extra-read
channel's `used` flag to zero, and an emptied stack
(`stack_len = num_pops`) forces `stack_inv_aux = 0` and hence `used = 0`. -/
theorem stack_inv_gadget (ngp : Nat) (segStack : F) (lv nv : CpuColumnsView F)
    (filter : F) (sb : StackBehavior)
    (hpops : 0 < sb.num_pops) (hpush : sb.pushes = false) :
    ((CKind.basic,
        filter * ((lv.stack_len - ((sb.num_pops : Nat) : F)) * lv.general_stack.stack_inv
          - lv.general_stack.stack_inv_aux))
      ∈ eval_packed_one ngp segStack lv nv filter sb)
    ∧ ((CKind.transition,
        (filter * (lv.general_stack.stack_inv_aux - 1)) * (nv.mem_channels 0).used)
      ∈ eval_packed_one ngp segStack lv nv filter sb)
    ∧ (filter ≠ 0 →
        filter * ((lv.stack_len - ((sb.num_pops : Nat) : F)) * lv.general_stack.stack_inv
          - lv.general_stack.stack_inv_aux) = 0 →
        (filter * (lv.general_stack.stack_inv_aux - 1)) * (nv.mem_channels 0).used = 0 →
        ((lv.general_stack.stack_inv_aux ≠ 1 → (nv.mem_channels 0).used = 0)
          ∧ (lv.stack_len = ((sb.num_pops : Nat) : F) →
              lv.general_stack.stack_inv_aux = 0 ∧ (nv.mem_channels 0).used = 0))) := by
  have hmem1 : (CKind.basic,
      filter * ((lv.stack_len - ((sb.num_pops : Nat) : F)) * lv.general_stack.stack_inv
        - lv.general_stack.stack_inv_aux))
      ∈ packedPopsNoPush segStack lv nv filter sb.num_pops := by
    simp [packedPopsNoPush]
  have hmem2 : (CKind.transition,
      (filter * (lv.general_stack.stack_inv_aux - 1)) * (nv.mem_channels 0).used)
      ∈ packedPopsNoPush segStack lv nv filter sb.num_pops := by
    simp [packedPopsNoPush]
  have hbranch :
      packedPopsNoPush segStack lv nv filter sb.num_pops
        <:+: eval_packed_one ngp segStack lv nv filter sb := by
    unfold eval_packed_one
    rw [if_pos hpops, hpush, if_pos rfl]
    exact ⟨(List.range' 1 (sb.num_pops - 1)).flatMap (popReadConstraintsPacked segStack lv filter),
      packedNewTop lv nv filter sb.new_top_stack_channel
        ++ (if sb.disable_other_channels then
              packedDisable ngp lv filter sb.num_pops false
            else [])
        ++ packedStackLen lv nv filter sb.num_pops false, by simp⟩
  refine ⟨hbranch.mem hmem1, hbranch.mem hmem2, ?_⟩
  intro hf h1 h2
  have cancel : ∀ x : F, filter * x = 0 → x = 0 := by
    intro x hx
    rcases mul_eq_zero.mp hx with h | h
    · exact absurd h hf
    · exact h
  have h1' : (lv.stack_len - ((sb.num_pops : Nat) : F)) * lv.general_stack.stack_inv
      - lv.general_stack.stack_inv_aux = 0 := cancel _ h1
  have h2' : (lv.general_stack.stack_inv_aux - 1) * (nv.mem_channels 0).used = 0 := by
    apply cancel
    calc filter * ((lv.general_stack.stack_inv_aux - 1) * (nv.mem_channels 0).used)
        = (filter * (lv.general_stack.stack_inv_aux - 1)) * (nv.mem_channels 0).used := by ring
      _ = 0 := h2
  have husedOf : lv.general_stack.stack_inv_aux ≠ 1 → (nv.mem_channels 0).used = 0 := by
    intro hne
    rcases mul_eq_zero.mp h2' with h | h
    · exact absurd (sub_eq_zero.mp h) hne
    · exact h
  refine ⟨husedOf, ?_⟩
  intro hlen
  have haux : lv.general_stack.stack_inv_aux = 0 := by
    have : (lv.stack_len - ((sb.num_pops : Nat) : F)) = 0 := sub_eq_zero.mpr hlen
    rw [this, zero_mul, zero_sub, neg_eq_zero] at h1'
    exact h1'
  exact ⟨haux, husedOf (by rw [haux]; exact zero_ne_one)⟩

end EvmStack

instance : Fact (Nat.Prime 17) := ⟨by norm_num⟩

namespace EvmStack

/-- Concrete memory channel used to witness the gadget theorem. -/
def wChan : MemoryChannelView (ZMod 17) :=
  { used := 1, is_read := 1, addr_context := 0, addr_segment := 3,
    addr_virtual := 1, value := [2, 2] }

/-- Concrete local row used to witness the gadget theorem: stack length 2,
`stack_inv = 9` (the inverse of `2 - 1 = 1` is 1, here exercising a generic
value), `stack_inv_aux = 9`. -/
def wLv : CpuColumnsView (ZMod 17) :=
  { context := 0, stack_len := 2, mem_channels := fun _ => wChan,
    general_stack := { stack_inv := 9, stack_inv_aux := 9 } }

/-- Concrete next row used to witness the gadget theorem. -/
def wNv : CpuColumnsView (ZMod 17) :=
  { context := 0, stack_len := 1, mem_channels := fun _ => wChan,
    general_stack := { stack_inv := 0, stack_inv_aux := 0 } }

/-- Concrete stack behavior used to witness the gadget theorem:
one pop, no push (the shape of `POP` and `JUMP`). -/
def wSb : StackBehavior :=
  { num_pops := 1, pushes := false, new_top_stack_channel := none,
    disable_other_channels := false }

/-- Witness for the gadget theorem at a concrete input. -/
theorem stack_inv_gadget_witness :
    (0 < wSb.num_pops) ∧ (wSb.pushes = false)
    ∧ (((CKind.basic,
          (1 : ZMod 17) * ((wLv.stack_len - ((wSb.num_pops : Nat) : ZMod 17))
              * wLv.general_stack.stack_inv
            - wLv.general_stack.stack_inv_aux))
        ∈ eval_packed_one 5 3 wLv wNv 1 wSb)
      ∧ ((CKind.transition,
          ((1 : ZMod 17) * (wLv.general_stack.stack_inv_aux - 1)) * (wNv.mem_channels 0).used)
        ∈ eval_packed_one 5 3 wLv wNv 1 wSb)
      ∧ ((1 : ZMod 17) ≠ 0 →
          (1 : ZMod 17) * ((wLv.stack_len - ((wSb.num_pops : Nat) : ZMod 17))
              * wLv.general_stack.stack_inv
            - wLv.general_stack.stack_inv_aux) = 0 →
          ((1 : ZMod 17) * (wLv.general_stack.stack_inv_aux - 1)) * (wNv.mem_channels 0).used = 0 →
          ((wLv.general_stack.stack_inv_aux ≠ 1 → (wNv.mem_channels 0).used = 0)
            ∧ (wLv.stack_len = ((wSb.num_pops : Nat) : ZMod 17) →
                wLv.general_stack.stack_inv_aux = 0 ∧ (wNv.mem_channels 0).used = 0)))) :=
  ⟨by decide, rfl, stack_inv_gadget 5 3 wLv wNv 1 wSb (by decide) rfl⟩

end EvmStack

namespace Starky

/-- A polynomial in value (evaluation) form, as in the repository's
`PolynomialValues`. -/
structure PolynomialValues (F : Type) where
  values : List F
deriving DecidableEq, Repr

/-- A polynomial in coefficient form, as in the repository's
`PolynomialCoeffs`. -/
structure PolynomialCoeffs (F : Type) where
  coeffs : List F
deriving DecidableEq, Repr

/-- Modelled from the spec: the short binding digest set ("cap") of a
commitment, suitable for transcript absorption. -/
structure MerkleCap (F : Type) where
  hashes : List F
deriving DecidableEq, Repr

/-- Modelled from the spec: the commitment oracle's batch handle — the
committed polynomials together with the cap of the Merkle tree built over
their low-degree extensions. -/
structure PolynomialBatch (F : Type) where
  polynomials : List (PolynomialCoeffs F)
  cap : MerkleCap F
deriving DecidableEq, Repr

/-- Modelled from the spec: the Fiat-Shamir transcript state, a single
evolving object mutated by absorb/derive calls in strict temporal order. -/
structure ChallengerState (F : Type) where
  absorbed : List F
deriving DecidableEq, Repr

/-- The opening set of a STARK proof: trace values at `zeta`, trace values
at `g * zeta`, and quotient values at `zeta`. -/
structure StarkOpeningSet (E : Type) where
  local_values : List E
  next_values : List E
  quotient_polys : List E
deriving DecidableEq, Repr

/-- Modelled from the spec: the opaque FRI opening proof produced by the
black-box low-degree-test capability. -/
structure FriProof (F : Type) where
  data : List F
deriving DecidableEq, Repr

/-- The proof bundle `StarkProof`: the immutable bundle of trace cap, opening set and
opening proof. -/
structure StarkProof (F E : Type) where
  trace_cap : MerkleCap F
  openings : StarkOpeningSet E
  opening_proof : FriProof F
deriving DecidableEq, Repr

/-- The FRI part of a `StarkConfig`: blow-up exponent and cap height. -/
structure FriConfig where
  rate_bits : Nat
  cap_height : Nat
deriving DecidableEq, Repr

/-- The configuration `StarkConfig`: number of challenge batches plus the FRI configuration. -/
structure StarkConfig where
  num_challenges : Nat
  fri_config : FriConfig
deriving DecidableEq, Repr

/-- The (local row, next row, public inputs) triple handed to the external
constraint capability, as in `StarkEvaluationVars`. -/
structure StarkEvaluationVars (F : Type) where
  local_values : List F
  next_values : List F
  public_inputs : List F
deriving DecidableEq, Repr

/-- Modelled from the spec: the `ConstraintConsumer` of the constraint
evaluator — it carries the random weight `alpha`, the two boundary
selector values for the current point, and the running scalar
constraint-violation accumulator, which starts at zero. -/
structure ConstraintConsumer (F : Type) where
  alpha : F
  lagrange_basis_first : F
  lagrange_basis_last : F
  accumulator : F
deriving DecidableEq, Repr

/-- Modelled from the spec: `ConstraintConsumer::new` with a single weight
and the two boundary selector values; the accumulator starts empty. -/
def ConstraintConsumer.new {F : Type} [Field F] (alpha lf ll : F) :
    ConstraintConsumer F :=
  { alpha := alpha, lagrange_basis_first := lf, lagrange_basis_last := ll,
    accumulator := 0 }

/-- Modelled from the spec: the external constraint capability (the `Stark`
trait object): fixed column/public-input counts and the packed base-field
evaluation that appends weighted constraint-violation terms to a consumer. -/
structure Stark (F : Type) where
  numColumns : Nat
  numPublicInputs : Nat
  eval_packed_base : StarkEvaluationVars F → ConstraintConsumer F → ConstraintConsumer F

/-- Modelled from the spec: every external collaborator consumed by
`prove` — the commitment oracle (`from_values`/`from_coeffs`,
`get_lde_values`), the low-degree extension of a value-form polynomial onto
the coset, the precomputed inverse of `Z_H` on the coset, the inverse coset
FFT, the Fiat-Shamir challenger operations, the primitive root of unity,
and the opening-set/opening-proof generators. -/
structure ProverEnv (F E : Type) where
  from_values : List (PolynomialValues F) → Nat → Nat → Option (PolynomialBatch F)
  from_coeffs : List (PolynomialCoeffs F) → Nat → Nat → Option (PolynomialBatch F)
  get_lde_values : PolynomialBatch F → Nat → List F
  lde : PolynomialValues F → Nat → List F
  z_h_inv : Nat → Nat → Nat → F
  coset_ifft : List F → PolynomialCoeffs F
  challenger_new : ChallengerState F
  observe_cap : ChallengerState F → MerkleCap F → ChallengerState F
  get_n_challenges : ChallengerState F → Nat → List F × ChallengerState F
  get_extension_challenge : ChallengerState F → E × ChallengerState F
  primitive_root_of_unity : Nat → E
  opening_set_new : E → E → PolynomialBatch F → PolynomialBatch F → StarkOpeningSet E
  prove_openings : E → E → ChallengerState F → FriProof F × ChallengerState F

/-- Modelled from the spec: `log2_strict` from the repository's utility
crate — the exact base-2 logarithm, failing (a panic in the source) when
the argument is not a power of two.  An exponent `k` with `2 ^ k = n`
always satisfies `k ≤ n`, so searching `0..n` is exhaustive. -/
def log2_strict (n : Nat) : Option Nat :=
  (List.range (n + 1)).find? (fun k => 2 ^ k == n)

/-- Modelled from the spec: `PolynomialCoeffs::trim`, truncating trailing
zero coefficients. -/
def PolynomialCoeffs.trim {F : Type} [Field F] [DecidableEq F]
    (p : PolynomialCoeffs F) : PolynomialCoeffs F :=
  { coeffs := (p.coeffs.reverse.dropWhile (fun c => decide (c = 0))).reverse }

/-- Modelled from the spec: `PolynomialCoeffs::pad`, zero-padding the
coefficient vector up to `new_len` and failing when the vector is already
longer than `new_len`. -/
def PolynomialCoeffs.pad {F : Type} [Field F] (p : PolynomialCoeffs F)
    (new_len : Nat) : Option (PolynomialCoeffs F) :=
  if p.coeffs.length ≤ new_len then
    some { coeffs := p.coeffs ++ List.replicate (new_len - p.coeffs.length) 0 }
  else none

/-- Fuel-driven worker for `chunksList`; the fuel only bounds the
recursion depth and is always instantiated with the list length. -/
def chunksGo {α : Type} (n : Nat) : Nat → List α → List (List α)
  | _, [] => []
  | 0, l => [l]
  | fuel + 1, a :: l =>
      ((a :: l).take n) :: chunksGo n fuel ((a :: l).drop n)

/-- Splitting a list into consecutive chunks of size `n`, the last chunk
possibly shorter, as Rust's `slice::chunks` does for `n > 0`. -/
def chunksList {α : Type} (n : Nat) (l : List α) : List (List α) :=
  chunksGo n l.length l

/-- Modelled from the spec: `PolynomialCoeffs::chunks`, splitting the
coefficient vector into chunks of size `chunk_size`. -/
def PolynomialCoeffs.chunks {F : Type} (p : PolynomialCoeffs F)
    (chunk_size : Nat) : List (PolynomialCoeffs F) :=
  (chunksList chunk_size p.coeffs).map PolynomialCoeffs.mk

variable {F E : Type} [Field F] [DecidableEq F] [Field E] [DecidableEq E]

/-- The value-form indicator polynomial of the first native row, before
extension: a zero vector of length `degree` with a one written at index 0
(`evals.values[0] = F::ONE` in `compute_quotient_polys`). -/
def lagrangeFirstValues (degree : Nat) : PolynomialValues F :=
  { values := (List.replicate degree (0 : F)).set 0 1 }

/-- The value-form indicator polynomial of the last native row, before
extension: a zero vector of length `degree` with a one written at index
`degree - 1`. -/
def lagrangeLastValues (degree : Nat) : PolynomialValues F :=
  { values := (List.replicate degree (0 : F)).set (degree - 1) 1 }

/-- The evaluation-vars triple built at extended-domain index `i` inside
`compute_quotient_polys`: LDE row `i`, LDE row `(i+1) mod extended_len`,
and an all-zero public-inputs array. -/
def vars_at (env : ProverEnv F E) (S : Stark F) (tc : PolynomialBatch F)
    (db rb i : Nat) : StarkEvaluationVars F :=
  { local_values := env.get_lde_values tc i,
    next_values := env.get_lde_values tc ((i + 1) % (2 ^ db <<< rb)),
    public_inputs := List.replicate S.numPublicInputs (0 : F) }

/-- The scalar fed into the quotient division at extended-domain index `i`
for weight `alpha`: the consumer's accumulator after the external
capability has run on the vars at `i` with the boundary selector values
`lagrange_first[i]`, `lagrange_last[i]`. -/
def constraint_eval_at (env : ProverEnv F E) (S : Stark F)
    (tc : PolynomialBatch F) (alpha : F) (db rb i : Nat) : F :=
  let degree := 2 ^ db
  let lagrange_first := env.lde (lagrangeFirstValues degree) rb
  let lagrange_last := env.lde (lagrangeLastValues degree) rb
  let consumer := ConstraintConsumer.new alpha
    (lagrange_first.getD i 0) (lagrange_last.getD i 0)
  (S.eval_packed_base (vars_at env S tc db rb i) consumer).accumulator

/-- The quotient evaluations over the extended domain for one weight
`alpha`: at each index, the constraint accumulator divided by `Z_H`
(multiplication by the precomputed inverse). -/
def quotient_evals_for (env : ProverEnv F E) (S : Stark F)
    (tc : PolynomialBatch F) (alpha : F) (db rb : Nat) : List F :=
  (List.range (2 ^ db <<< rb)).map fun i =>
    constraint_eval_at env S tc alpha db rb i * env.z_h_inv db rb i

/-- The function `compute_quotient_polys` from `starky/src/prover.rs`: one quotient
polynomial (in coefficient form, via the inverse coset FFT) per weight. -/
def compute_quotient_polys (env : ProverEnv F E) (S : Stark F)
    (tc : PolynomialBatch F) (alphas : List F) (db rb : Nat) :
    List (PolynomialCoeffs F) :=
  alphas.map fun alpha =>
    env.coset_ifft (quotient_evals_for env S tc alpha db rb)

/-- The chunking stage applied to one quotient polynomial in `prove`:
trim, pad to `degree << rate_bits` (failing — a panic in the source — when
the trimmed polynomial does not fit), then split into chunks of size
`degree`. -/
def quotient_chunks_one (q : PolynomialCoeffs F) (degree rate_bits : Nat) :
    Option (List (PolynomialCoeffs F)) :=
  let t := q.trim
  (t.pad (degree <<< rate_bits)).map fun padded => padded.chunks degree

/-- The full `flat_map` of the chunking stage over all quotient
polynomials; `none` models the `expect` panic on the first failure. -/
def all_quotient_chunks (qs : List (PolynomialCoeffs F))
    (degree rate_bits : Nat) : Option (List (PolynomialCoeffs F)) :=
  match qs with
  | [] => some []
  | q :: rest =>
    match quotient_chunks_one q degree rate_bits,
        all_quotient_chunks rest degree rate_bits with
    | some c, some cs => some (c ++ cs)
    | _, _ => none

/-- How a `prove` run fails: `fatal` models panics (`log2_strict` on a
non-power-of-two length, the `expect` on `pad`), `recoverable` models the
`ensure!`-style `Result` errors such as the degenerate-challenge check. -/
inductive ProveError where
  | fatal : String → ProveError
  | recoverable : String → ProveError
deriving DecidableEq, Repr

/-- Transcript interaction events recorded along a `prove` run, in
execution order. -/
inductive TranscriptEvent where
  | commit : String → TranscriptEvent
  | observe : String → TranscriptEvent
  | derive : String → TranscriptEvent
  | evalConstraints : TranscriptEvent
  | openPhase : TranscriptEvent
deriving DecidableEq, Repr

/-- The mutable timing tree threaded through `prove` for profiling; it
carries no data that influences the proof. -/
structure TimingTree where
  entries : List String
deriving DecidableEq, Repr

/-- The driver `prove` from `starky/src/prover.rs`, embedded as a function from the
trace, the configuration and the external collaborators to either a
`StarkProof` or an error, together with the ordered list of transcript
interaction events the run performed. -/
def prove (env : ProverEnv F E) (S : Stark F) (config : StarkConfig)
    (trace : List (List F)) (_timing : TimingTree) :
    Except ProveError (StarkProof F E) × List TranscriptEvent :=
  let degree := trace.length
  match log2_strict degree with
  | none =>
      (Except.error (ProveError.fatal "log2_strict: trace length is not a power of two"), [])
  | some degree_bits =>
    let trace_poly_values := (List.transpose trace).map PolynomialValues.mk
    let rate_bits := config.fri_config.rate_bits
    let cap_height := config.fri_config.cap_height
    match env.from_values trace_poly_values rate_bits cap_height with
    | none => (Except.error (ProveError.fatal "trace commitment construction failed"), [])
    | some trace_commitment =>
      let events1 := [TranscriptEvent.commit "trace"]
      let trace_cap := trace_commitment.cap
      let chal1 := env.observe_cap env.challenger_new trace_cap
      let events2 := events1 ++ [TranscriptEvent.observe "trace cap"]
      let achal := env.get_n_challenges chal1 config.num_challenges
      let alphas := achal.1
      let events3 := events2 ++ [TranscriptEvent.derive "alphas"]
      let quotient_polys :=
        compute_quotient_polys env S trace_commitment alphas degree_bits rate_bits
      let events4 := events3 ++ [TranscriptEvent.evalConstraints]
      match all_quotient_chunks quotient_polys degree rate_bits with
      | none =>
          (Except.error (ProveError.fatal
            "Quotient has failed, the vanishing polynomial is not divisible by Z_H"), events4)
      | some chunksAll =>
        match env.from_coeffs chunksAll rate_bits cap_height with
        | none =>
            (Except.error (ProveError.fatal "quotient commitment construction failed"), events4)
        | some quotient_commitment =>
          let events5 := events4 ++ [TranscriptEvent.commit "quotient"]
          let chal2 := env.observe_cap achal.2 quotient_commitment.cap
          let events6 := events5 ++ [TranscriptEvent.observe "quotient cap"]
          let zchal := env.get_extension_challenge chal2
          let zeta := zchal.1
          let events7 := events6 ++ [TranscriptEvent.derive "zeta"]
          let g := env.primitive_root_of_unity degree_bits
          if zeta ^ (2 ^ degree_bits) = (1 : E) then
            (Except.error (ProveError.recoverable "Opening point is in the subgroup."), events7)
          else
            let openings := env.opening_set_new zeta g trace_commitment quotient_commitment
            let fri := env.prove_openings zeta g zchal.2
            (Except.ok
              { trace_cap := trace_cap, openings := openings, opening_proof := fri.1 },
             events7 ++ [TranscriptEvent.openPhase])

lemma getD_map_range {α : Type} (f : Nat → α) (n i : Nat) (hi : i < n) (d : α) :
    ((List.range n).map f).getD i d = f i := by
  rw [List.getD_eq_getElem?_getD, List.getElem?_map, List.getElem?_range hi]
  rfl

/-- C1: the value fed into the quotient division at extended-domain index
`i` for weight `alpha` is the consumer accumulator obtained from the LDE
row at `i`, the LDE row at `(i+1) mod extended_len`, the all-zero public
inputs, and the boundary selector values taken from the LDE of the
first-row and last-row indicator polynomials; one quotient polynomial is
produced per weight, and the next row of the last extended index wraps to
index 0. -/
theorem quotient_division_input (env : ProverEnv F E) (S : Stark F)
    (tc : PolynomialBatch F) (alphas : List F) (alpha : F) (db rb i : Nat)
    (hi : i < 2 ^ db <<< rb) :
    (quotient_evals_for env S tc alpha db rb).getD i 0
      = (S.eval_packed_base
          { local_values := env.get_lde_values tc i,
            next_values := env.get_lde_values tc ((i + 1) % (2 ^ db <<< rb)),
            public_inputs := List.replicate S.numPublicInputs 0 }
          (ConstraintConsumer.new alpha
            ((env.lde { values := (List.replicate (2 ^ db) (0 : F)).set 0 1 } rb).getD i 0)
            ((env.lde { values :=
                (List.replicate (2 ^ db) (0 : F)).set (2 ^ db - 1) 1 } rb).getD i 0))).accumulator
        * env.z_h_inv db rb i
    ∧ (compute_quotient_polys env S tc alphas db rb).length = alphas.length
    ∧ (i = 2 ^ db <<< rb - 1 → (i + 1) % (2 ^ db <<< rb) = 0) := by
  have hpos : 0 < 2 ^ db <<< rb := by
    rw [Nat.shiftLeft_eq]
    positivity
  refine ⟨?_, ?_, ?_⟩
  · rw [quotient_evals_for, getD_map_range _ _ i hi]
    rfl
  · simp [compute_quotient_polys]
  · intro hlast
    subst hlast
    rw [Nat.sub_add_cancel hpos, Nat.mod_self]

/-- C10: the vars handed to the external capability always carry an
all-zero public-inputs array of length `S::PUBLIC_INPUTS`; consequently two
capabilities that agree on all-zero public inputs yield identical quotient
polynomials, so the proof cannot depend on any caller-chosen public-input
values. -/
theorem public_inputs_all_zero (env : ProverEnv F E) (S1 S2 : Stark F)
    (tc : PolynomialBatch F) (alphas : List F) (db rb i : Nat)
    (hagree : ∀ lv nv c, S1.eval_packed_base
        { local_values := lv, next_values := nv,
          public_inputs := List.replicate S1.numPublicInputs 0 } c
      = S2.eval_packed_base
        { local_values := lv, next_values := nv,
          public_inputs := List.replicate S2.numPublicInputs 0 } c) :
    (vars_at env S1 tc db rb i).public_inputs = List.replicate S1.numPublicInputs 0
    ∧ compute_quotient_polys env S1 tc alphas db rb
        = compute_quotient_polys env S2 tc alphas db rb := by
  refine ⟨rfl, ?_⟩
  unfold compute_quotient_polys quotient_evals_for constraint_eval_at vars_at
  simp only [hagree]

lemma chunksGo_spec {α : Type} (n : Nat) (hn : 0 < n) :
    ∀ (k fuel : Nat) (l : List α), l.length = n * k → l.length ≤ fuel →
      (chunksGo n fuel l).length = k ∧ ∀ c ∈ chunksGo n fuel l, c.length = n := by
  intro k
  induction k with
  | zero =>
    intro fuel l hl _
    have : l = [] := List.eq_nil_of_length_eq_zero (by simpa using hl)
    subst this
    cases fuel <;> simp [chunksGo]
  | succ k ih =>
    intro fuel l hl hfuel
    obtain ⟨m, rfl⟩ : ∃ m, n = m + 1 := ⟨n - 1, by omega⟩
    have hmul : (m + 1) * (k + 1) = (m + 1) * k + (m + 1) := Nat.mul_succ (m + 1) k
    cases l with
    | nil => simp at hl
    | cons a t =>
      have hlen : (a :: t).length = (m + 1) * (k + 1) := hl
      cases fuel with
      | zero => simp at hfuel
      | succ fuel =>
        have htake : ((a :: t).take (m + 1)).length = m + 1 := by
          rw [List.length_take]
          omega
        have hdrop : ((a :: t).drop (m + 1)).length = (m + 1) * k := by
          rw [List.length_drop]
          omega
        have hdropfuel : ((a :: t).drop (m + 1)).length ≤ fuel := by
          rw [List.length_drop]
          simp only [List.length_cons] at hfuel ⊢
          omega
        obtain ⟨ihlen, ihmem⟩ := ih fuel ((a :: t).drop (m + 1)) hdrop hdropfuel
        rw [chunksGo]
        constructor
        · simpa using ihlen
        · intro c hc
          rcases List.mem_cons.mp hc with h | h
          · rw [h]; exact htake
          · exact ihmem c h

/-- A list of length `n * k` splits under `chunksList n` (with `n > 0`)
into exactly `k` chunks, each of length exactly `n`. -/
lemma chunksList_spec {α : Type} (n k : Nat) (hn : 0 < n) :
    ∀ l : List α, l.length = n * k →
      (chunksList n l).length = k ∧ ∀ c ∈ chunksList n l, c.length = n := by
  intro l hl
  exact chunksGo_spec n hn k l.length l hl (Nat.le_refl _)

/-- C5: the chunking stage applied in `prove` to one quotient polynomial —
trim, then pad to `degree << rate_bits`, then split into chunks of size
`degree` — succeeds whenever the trimmed polynomial fits, and produces
exactly `2^rate_bits` chunks, each holding exactly `degree` coefficients
(hence of coefficient-form degree strictly below `degree`). -/
theorem quotient_chunks_shape (q : PolynomialCoeffs F) (db rb : Nat)
    (hfit : q.trim.coeffs.length ≤ 2 ^ db <<< rb) :
    ∃ l, quotient_chunks_one q (2 ^ db) rb = some l
      ∧ l.length = 2 ^ rb
      ∧ (∀ c ∈ l, c.coeffs.length = 2 ^ db)
      ∧ (∀ c ∈ l, c.coeffs.length - 1 < 2 ^ db) := by
  have hpad : q.trim.pad (2 ^ db <<< rb)
      = some { coeffs := q.trim.coeffs
          ++ List.replicate (2 ^ db <<< rb - q.trim.coeffs.length) 0 } := by
    rw [PolynomialCoeffs.pad, if_pos hfit]
  have hlen : (q.trim.coeffs
      ++ List.replicate (2 ^ db <<< rb - q.trim.coeffs.length) (0 : F)).length
      = 2 ^ db * 2 ^ rb := by
    rw [List.length_append, List.length_replicate, Nat.shiftLeft_eq] at *
    omega
  obtain ⟨hchunks, hmem⟩ := chunksList_spec (2 ^ db) (2 ^ rb)
    (by positivity)
    (q.trim.coeffs ++ List.replicate (2 ^ db <<< rb - q.trim.coeffs.length) (0 : F)) hlen
  refine ⟨(PolynomialCoeffs.mk (q.trim.coeffs
      ++ List.replicate (2 ^ db <<< rb - q.trim.coeffs.length) (0 : F))).chunks (2 ^ db),
    ?_, ?_, ?_, ?_⟩
  · rw [quotient_chunks_one, hpad]
    rfl
  · simpa [PolynomialCoeffs.chunks] using hchunks
  · intro c hc
    simp only [PolynomialCoeffs.chunks, List.mem_map] at hc
    obtain ⟨c0, hc0, rfl⟩ := hc
    exact hmem c0 hc0
  · intro c hc
    simp only [PolynomialCoeffs.chunks, List.mem_map] at hc
    obtain ⟨c0, hc0, rfl⟩ := hc
    have := hmem c0 hc0
    have hp : 0 < 2 ^ db := by positivity
    simp only [this]
    omega

lemma quotient_chunks_one_none_iff (q : PolynomialCoeffs F) (degree rb : Nat) :
    quotient_chunks_one q degree rb = none
      ↔ degree <<< rb < q.trim.coeffs.length := by
  rw [quotient_chunks_one, PolynomialCoeffs.pad]
  split
  · next h => simp [Option.map, Nat.not_lt.mpr h]
  · next h => simp [Option.map, Nat.lt_of_not_le (by exact fun hle => h hle)]

lemma all_quotient_chunks_none_iff (qs : List (PolynomialCoeffs F))
    (degree rb : Nat) :
    all_quotient_chunks qs degree rb = none
      ↔ ∃ q ∈ qs, degree <<< rb < q.trim.coeffs.length := by
  induction qs with
  | nil => simp [all_quotient_chunks]
  | cons q rest ih =>
    rw [all_quotient_chunks]
    rcases h1 : quotient_chunks_one q degree rb with _ | c
    · have := (quotient_chunks_one_none_iff q degree rb).mp h1
      simp [this]
    · have h1' : ¬ degree <<< rb < q.trim.coeffs.length := by
        intro hlt
        rw [(quotient_chunks_one_none_iff q degree rb).mpr hlt] at h1
        exact Option.noConfusion h1
      rcases h2 : all_quotient_chunks rest degree rb with _ | cs
      · simp only [h2] at ih
        obtain ⟨p, hp, hlt⟩ := ih.mp trivial
        constructor
        · intro _
          exact ⟨p, List.mem_cons_of_mem q hp, hlt⟩
        · intro _
          rfl
      · have h2' := ih
        rw [h2] at h2'
        simp only [List.mem_cons]
        constructor
        · intro h; exact absurd h (by simp)
        · rintro ⟨p, hp | hp, hlt⟩
          · rw [hp] at hlt; exact absurd hlt h1'
          · exact absurd (h2'.mpr ⟨p, hp, hlt⟩) (by simp)

/-- C9: a trace whose row count is not a power of two makes `prove` fail
immediately with the configuration (power-of-two) failure, before any
commitment, transcript interaction or other work: the event log is empty
and no proof is produced. -/
theorem prove_non_pow2_rejected (env : ProverEnv F E) (S : Stark F)
    (config : StarkConfig) (trace : List (List F)) (tm : TimingTree)
    (h : ∀ k, trace.length ≠ 2 ^ k) :
    (prove env S config trace tm).1
      = Except.error (ProveError.fatal "log2_strict: trace length is not a power of two")
    ∧ (prove env S config trace tm).2 = [] := by
  have hnone : log2_strict trace.length = none := by
    rcases hf : log2_strict trace.length with _ | k
    · rfl
    · have := List.find?_some hf
      simp only [beq_iff_eq] at this
      exact absurd this.symm (h k)
  have hrun : prove env S config trace tm
      = (Except.error (ProveError.fatal "log2_strict: trace length is not a power of two"),
         []) := by
    simp only [prove, hnone]
  rw [hrun]
  exact ⟨rfl, rfl⟩

/-- C7: `prove` is deterministic — it is a pure function of the trace, the
configuration and the (deterministically seeded) external collaborators,
and its output does not depend on the timing tree, the only other input in
its signature. -/
theorem prove_deterministic (env : ProverEnv F E) (S : Stark F)
    (config1 config2 : StarkConfig) (trace1 trace2 : List (List F))
    (tm1 tm2 : TimingTree) (hc : config1 = config2) (ht : trace1 = trace2) :
    prove env S config1 trace1 tm1 = prove env S config2 trace2 tm2 := by
  subst hc
  subst ht
  rfl

/-- C4: if some quotient polynomial, once trimmed, has more than
`degree << rate_bits` coefficients (the division by `Z_H` left a nonzero
remainder), `prove` aborts with the distinguishable fatal quotient failure
and never returns a proof. -/
theorem prove_quotient_remainder_fatal (env : ProverEnv F E) (S : Stark F)
    (config : StarkConfig) (trace : List (List F)) (tm : TimingTree)
    (db : Nat) (tc : PolynomialBatch F) (alphas : List F)
    (ch2 : ChallengerState F)
    (hdb : log2_strict trace.length = some db)
    (htc : env.from_values ((List.transpose trace).map PolynomialValues.mk)
        config.fri_config.rate_bits config.fri_config.cap_height = some tc)
    (hal : env.get_n_challenges (env.observe_cap env.challenger_new tc.cap)
        config.num_challenges = (alphas, ch2))
    (hbad : ∃ q ∈ compute_quotient_polys env S tc alphas db config.fri_config.rate_bits,
        trace.length <<< config.fri_config.rate_bits < q.trim.coeffs.length) :
    (prove env S config trace tm).1
      = Except.error (ProveError.fatal
          "Quotient has failed, the vanishing polynomial is not divisible by Z_H")
    ∧ ∀ p, (prove env S config trace tm).1 ≠ Except.ok p := by
  have hnone : all_quotient_chunks
      (compute_quotient_polys env S tc alphas db config.fri_config.rate_bits)
      trace.length config.fri_config.rate_bits = none :=
    (all_quotient_chunks_none_iff _ _ _).mpr hbad
  have hrun : prove env S config trace tm
      = (Except.error (ProveError.fatal
            "Quotient has failed, the vanishing polynomial is not divisible by Z_H"),
         [TranscriptEvent.commit "trace", TranscriptEvent.observe "trace cap",
          TranscriptEvent.derive "alphas", TranscriptEvent.evalConstraints]) := by
    simp only [prove, hdb, htc, hal, hnone, List.cons_append, List.nil_append]
  rw [hrun]
  exact ⟨rfl, fun p hp => Except.noConfusion hp⟩

/-- C2: once the run reaches the challenge point, it returns an error if
and only if `zeta ^ (2 ^ degree_bits) = 1` (`zeta` is a root of unity of
order dividing the native-domain order); in the rejecting case the error is
the recoverable degenerate-challenge error and no opening phase happens,
and otherwise the run proceeds to produce the openings. -/
theorem prove_zeta_rejection (env : ProverEnv F E) (S : Stark F)
    (config : StarkConfig) (trace : List (List F)) (tm : TimingTree)
    (db : Nat) (tc qc : PolynomialBatch F) (alphas : List F)
    (ch2 ch4 : ChallengerState F) (zeta : E)
    (chunksAll : List (PolynomialCoeffs F))
    (hdb : log2_strict trace.length = some db)
    (htc : env.from_values ((List.transpose trace).map PolynomialValues.mk)
        config.fri_config.rate_bits config.fri_config.cap_height = some tc)
    (hal : env.get_n_challenges (env.observe_cap env.challenger_new tc.cap)
        config.num_challenges = (alphas, ch2))
    (hch : all_quotient_chunks
        (compute_quotient_polys env S tc alphas db config.fri_config.rate_bits)
        trace.length config.fri_config.rate_bits = some chunksAll)
    (hqc : env.from_coeffs chunksAll config.fri_config.rate_bits
        config.fri_config.cap_height = some qc)
    (hz : env.get_extension_challenge (env.observe_cap ch2 qc.cap) = (zeta, ch4)) :
    ((∃ e, (prove env S config trace tm).1 = Except.error e) ↔ zeta ^ 2 ^ db = 1)
    ∧ (zeta ^ 2 ^ db = 1 →
        (prove env S config trace tm).1
          = Except.error (ProveError.recoverable "Opening point is in the subgroup.")
        ∧ TranscriptEvent.openPhase ∉ (prove env S config trace tm).2)
    ∧ (zeta ^ 2 ^ db ≠ 1 →
        (prove env S config trace tm).1
          = Except.ok
            { trace_cap := tc.cap,
              openings := env.opening_set_new zeta (env.primitive_root_of_unity db) tc qc,
              opening_proof := (env.prove_openings zeta (env.primitive_root_of_unity db) ch4).1 }) := by
  by_cases hzeta : zeta ^ 2 ^ db = 1
  · have hrun : prove env S config trace tm
        = (Except.error (ProveError.recoverable "Opening point is in the subgroup."),
           [TranscriptEvent.commit "trace", TranscriptEvent.observe "trace cap",
            TranscriptEvent.derive "alphas", TranscriptEvent.evalConstraints,
            TranscriptEvent.commit "quotient", TranscriptEvent.observe "quotient cap",
            TranscriptEvent.derive "zeta"]) := by
      simp only [prove, hdb, htc, hal, hch, hqc, hz, List.cons_append, List.nil_append,
        if_pos hzeta]
    rw [hrun]
    refine ⟨by simp [hzeta], fun _ => ⟨rfl, by simp⟩, fun hne => absurd hzeta hne⟩
  · have hrun : prove env S config trace tm
        = (Except.ok
            { trace_cap := tc.cap,
              openings := env.opening_set_new zeta (env.primitive_root_of_unity db) tc qc,
              opening_proof := (env.prove_openings zeta (env.primitive_root_of_unity db) ch4).1 },
           [TranscriptEvent.commit "trace", TranscriptEvent.observe "trace cap",
            TranscriptEvent.derive "alphas", TranscriptEvent.evalConstraints,
            TranscriptEvent.commit "quotient", TranscriptEvent.observe "quotient cap",
            TranscriptEvent.derive "zeta", TranscriptEvent.openPhase]) := by
      simp only [prove, hdb, htc, hal, hch, hqc, hz, List.cons_append, List.nil_append,
        if_neg hzeta]
    rw [hrun]
    refine ⟨by simp [hzeta], fun heq => absurd heq hzeta, fun _ => rfl⟩

/-- C3: on a successful run, the transcript interactions happen in the
strict order commit(trace), observe(trace cap), derive(alphas), constraint
evaluation, commit(quotient), observe(quotient cap), derive(zeta), open —
each challenge is derived only after the cap of the preceding commitment
has been observed, the alphas before constraint evaluation and zeta after
the quotient cap. -/
theorem prove_transcript_order (env : ProverEnv F E) (S : Stark F)
    (config : StarkConfig) (trace : List (List F)) (tm : TimingTree)
    (db : Nat) (tc qc : PolynomialBatch F) (alphas : List F)
    (ch2 ch4 : ChallengerState F) (zeta : E)
    (chunksAll : List (PolynomialCoeffs F))
    (hdb : log2_strict trace.length = some db)
    (htc : env.from_values ((List.transpose trace).map PolynomialValues.mk)
        config.fri_config.rate_bits config.fri_config.cap_height = some tc)
    (hal : env.get_n_challenges (env.observe_cap env.challenger_new tc.cap)
        config.num_challenges = (alphas, ch2))
    (hch : all_quotient_chunks
        (compute_quotient_polys env S tc alphas db config.fri_config.rate_bits)
        trace.length config.fri_config.rate_bits = some chunksAll)
    (hqc : env.from_coeffs chunksAll config.fri_config.rate_bits
        config.fri_config.cap_height = some qc)
    (hz : env.get_extension_challenge (env.observe_cap ch2 qc.cap) = (zeta, ch4))
    (hzeta : zeta ^ 2 ^ db ≠ 1) :
    (prove env S config trace tm).2
      = [TranscriptEvent.commit "trace", TranscriptEvent.observe "trace cap",
         TranscriptEvent.derive "alphas", TranscriptEvent.evalConstraints,
         TranscriptEvent.commit "quotient", TranscriptEvent.observe "quotient cap",
         TranscriptEvent.derive "zeta", TranscriptEvent.openPhase] := by
  simp only [prove, hdb, htc, hal, hch, hqc, hz, List.cons_append, List.nil_append,
    if_neg hzeta]

/-- Trivial external capability used by the witnesses: one column, no
public inputs, no constraints emitted. -/
def wStark : Stark (ZMod 17) :=
  { numColumns := 1, numPublicInputs := 0,
    eval_packed_base := fun _ c => c }

/-- A second capability that deviates from `wStark` exactly when some
public input is nonzero. -/
def wStark2 : Stark (ZMod 17) :=
  { numColumns := 1, numPublicInputs := 0,
    eval_packed_base := fun v c =>
      if v.public_inputs.all (fun x => x == 0) then c
      else { c with accumulator := c.accumulator + 1 } }

/-- A concrete environment for the witnesses: canned caps and challenges;
`zeta` is the extension challenge it hands out, `tail` is appended by its
inverse FFT (a nonempty `tail` forces the quotient-fit failure). -/
def wEnv (zeta : ZMod 17) (tail : List (ZMod 17)) : ProverEnv (ZMod 17) (ZMod 17) :=
  { from_values := fun _ _ _ => some { polynomials := [], cap := { hashes := [5] } },
    from_coeffs := fun cs _ _ => some { polynomials := cs, cap := { hashes := [7] } },
    get_lde_values := fun _ _ => [0],
    lde := fun v _ => v.values,
    z_h_inv := fun _ _ _ => 1,
    coset_ifft := fun v => { coeffs := v ++ tail },
    challenger_new := { absorbed := [] },
    observe_cap := fun st c => { absorbed := st.absorbed ++ c.hashes },
    get_n_challenges := fun st n => (List.replicate n 1, st),
    get_extension_challenge := fun st => (zeta, st),
    primitive_root_of_unity := fun _ => 1,
    opening_set_new := fun _ _ _ _ =>
      { local_values := [], next_values := [], quotient_polys := [] },
    prove_openings := fun _ _ st => ({ data := [] }, st) }

/-- One-row, one-column witness trace. -/
def wTrace : List (List (ZMod 17)) := [[2]]

/-- Three-row witness trace (length not a power of two). -/
def wTrace3 : List (List (ZMod 17)) := [[1], [1], [1]]

/-- Witness configuration: one challenge batch, no blowup, cap height 0. -/
def wConfig : StarkConfig :=
  { num_challenges := 1, fri_config := { rate_bits := 0, cap_height := 0 } }

/-- Witness timing tree. -/
def wTm : TimingTree := { entries := [] }

/-- The trace commitment returned by `wEnv`. -/
def wTc : PolynomialBatch (ZMod 17) :=
  { polynomials := [], cap := { hashes := [5] } }

/-- The quotient commitment returned by `wEnv` for the canned chunks. -/
def wQc : PolynomialBatch (ZMod 17) :=
  { polynomials := [{ coeffs := [0] }], cap := { hashes := [7] } }

/-- Challenger state after absorbing the trace cap. -/
def wCh2 : ChallengerState (ZMod 17) := { absorbed := [5] }

/-- Challenger state after absorbing both caps. -/
def wCh4 : ChallengerState (ZMod 17) := { absorbed := [5, 7] }

/-- Witness for the quotient-division-input theorem at a concrete input. -/
theorem quotient_division_input_witness :
    (0 < 2 ^ 0 <<< 0)
    ∧ ((quotient_evals_for (wEnv 1 []) wStark wTc 1 0 0).getD 0 0
        = (wStark.eval_packed_base
            { local_values := (wEnv 1 []).get_lde_values wTc 0,
              next_values := (wEnv 1 []).get_lde_values wTc ((0 + 1) % (2 ^ 0 <<< 0)),
              public_inputs := List.replicate wStark.numPublicInputs 0 }
            (ConstraintConsumer.new 1
              (((wEnv 1 []).lde
                { values := (List.replicate (2 ^ 0) (0 : ZMod 17)).set 0 1 } 0).getD 0 0)
              (((wEnv 1 []).lde
                { values := (List.replicate (2 ^ 0) (0 : ZMod 17)).set (2 ^ 0 - 1) 1 } 0).getD
                  0 0))).accumulator
          * (wEnv 1 []).z_h_inv 0 0 0
      ∧ (compute_quotient_polys (wEnv 1 []) wStark wTc [1] 0 0).length
          = ([1] : List (ZMod 17)).length
      ∧ (0 = 2 ^ 0 <<< 0 - 1 → (0 + 1) % (2 ^ 0 <<< 0) = 0)) :=
  ⟨by decide, quotient_division_input (wEnv 1 []) wStark wTc [1] 1 0 0 0 (by decide)⟩

/-- Witness for the all-zero-public-inputs theorem at a concrete input. -/
theorem public_inputs_all_zero_witness :
    (∀ lv nv c, wStark.eval_packed_base
        { local_values := lv, next_values := nv,
          public_inputs := List.replicate wStark.numPublicInputs 0 } c
      = wStark2.eval_packed_base
        { local_values := lv, next_values := nv,
          public_inputs := List.replicate wStark2.numPublicInputs 0 } c)
    ∧ ((vars_at (wEnv 1 []) wStark wTc 0 0 0).public_inputs
        = List.replicate wStark.numPublicInputs 0
      ∧ compute_quotient_polys (wEnv 1 []) wStark wTc [1] 0 0
          = compute_quotient_polys (wEnv 1 []) wStark2 wTc [1] 0 0) :=
  ⟨fun _ _ _ => rfl,
   public_inputs_all_zero (wEnv 1 []) wStark wStark2 wTc [1] 0 0 0 (fun _ _ _ => rfl)⟩

/-- Witness for the chunk-shape theorem at a concrete input. -/
theorem quotient_chunks_shape_witness :
    (PolynomialCoeffs.trim { coeffs := [(3 : ZMod 17), 0] }).coeffs.length ≤ 2 ^ 0 <<< 1
    ∧ ∃ l, quotient_chunks_one { coeffs := [(3 : ZMod 17), 0] } (2 ^ 0) 1 = some l
        ∧ l.length = 2 ^ 1
        ∧ (∀ c ∈ l, c.coeffs.length = 2 ^ 0)
        ∧ (∀ c ∈ l, c.coeffs.length - 1 < 2 ^ 0) :=
  ⟨by decide, quotient_chunks_shape { coeffs := [(3 : ZMod 17), 0] } 0 1 (by decide)⟩

/-- Witness for the non-power-of-two rejection theorem at a concrete
three-row trace. -/
theorem prove_non_pow2_rejected_witness :
    (∀ k, wTrace3.length ≠ 2 ^ k)
    ∧ (prove (wEnv 1 []) wStark wConfig wTrace3 wTm).1
        = Except.error (ProveError.fatal "log2_strict: trace length is not a power of two")
    ∧ (prove (wEnv 1 []) wStark wConfig wTrace3 wTm).2 = [] := by
  have h : ∀ k, wTrace3.length ≠ 2 ^ k := by
    intro k
    rcases k with _ | _ | k
    · decide
    · decide
    · have h4 : 2 ^ 2 ≤ 2 ^ (k + 2) := Nat.pow_le_pow_right (by decide) (by omega)
      show (3 : Nat) ≠ 2 ^ (k + 2)
      intro heq
      rw [← heq] at h4
      omega
  obtain ⟨h1, h2⟩ := prove_non_pow2_rejected (wEnv 1 []) wStark wConfig wTrace3 wTm h
  exact ⟨h, h1, h2⟩

/-- Witness for the determinism theorem at a concrete input, with two
different timing trees. -/
theorem prove_deterministic_witness :
    (wConfig = wConfig) ∧ (wTrace = wTrace)
    ∧ prove (wEnv 1 []) wStark wConfig wTrace { entries := ["outer"] }
        = prove (wEnv 1 []) wStark wConfig wTrace { entries := [] } :=
  ⟨rfl, rfl,
   prove_deterministic (wEnv 1 []) wStark wConfig wConfig wTrace wTrace
     { entries := ["outer"] } { entries := [] } rfl rfl⟩

/-- Witness for the quotient-remainder fatality theorem: the environment's
inverse FFT appends a spurious high coefficient, so the trimmed quotient
does not fit and the run aborts fatally. -/
theorem prove_quotient_remainder_fatal_witness :
    (log2_strict wTrace.length = some 0)
    ∧ ((wEnv 1 [1]).from_values ((List.transpose wTrace).map PolynomialValues.mk)
        wConfig.fri_config.rate_bits wConfig.fri_config.cap_height = some wTc)
    ∧ ((wEnv 1 [1]).get_n_challenges
        ((wEnv 1 [1]).observe_cap (wEnv 1 [1]).challenger_new wTc.cap)
        wConfig.num_challenges = ([1], wCh2))
    ∧ (∃ q ∈ compute_quotient_polys (wEnv 1 [1]) wStark wTc [1] 0
          wConfig.fri_config.rate_bits,
        wTrace.length <<< wConfig.fri_config.rate_bits < q.trim.coeffs.length)
    ∧ ((prove (wEnv 1 [1]) wStark wConfig wTrace wTm).1
        = Except.error (ProveError.fatal
            "Quotient has failed, the vanishing polynomial is not divisible by Z_H")
      ∧ ∀ p, (prove (wEnv 1 [1]) wStark wConfig wTrace wTm).1 ≠ Except.ok p) :=
  ⟨by decide, by decide, by decide, by decide,
   prove_quotient_remainder_fatal (wEnv 1 [1]) wStark wConfig wTrace wTm 0 wTc [1] wCh2
     (by decide) (by decide) (by decide) (by decide)⟩

/-- Witness for the zeta-rejection theorem: `wEnv 1 []` hands out
`zeta = 1`, which lies in every power-of-two subgroup, so the run is
rejected with the degenerate-challenge error. -/
theorem prove_zeta_rejection_witness :
    (log2_strict wTrace.length = some 0)
    ∧ ((wEnv 1 []).from_values ((List.transpose wTrace).map PolynomialValues.mk)
        wConfig.fri_config.rate_bits wConfig.fri_config.cap_height = some wTc)
    ∧ ((wEnv 1 []).get_n_challenges
        ((wEnv 1 []).observe_cap (wEnv 1 []).challenger_new wTc.cap)
        wConfig.num_challenges = ([1], wCh2))
    ∧ (all_quotient_chunks
        (compute_quotient_polys (wEnv 1 []) wStark wTc [1] 0 wConfig.fri_config.rate_bits)
        wTrace.length wConfig.fri_config.rate_bits = some [{ coeffs := [0] }])
    ∧ ((wEnv 1 []).from_coeffs [{ coeffs := [0] }] wConfig.fri_config.rate_bits
        wConfig.fri_config.cap_height = some wQc)
    ∧ ((wEnv 1 []).get_extension_challenge ((wEnv 1 []).observe_cap wCh2 wQc.cap)
        = (1, wCh4))
    ∧ (((∃ e, (prove (wEnv 1 []) wStark wConfig wTrace wTm).1 = Except.error e)
          ↔ (1 : ZMod 17) ^ 2 ^ 0 = 1)
      ∧ ((1 : ZMod 17) ^ 2 ^ 0 = 1 →
          (prove (wEnv 1 []) wStark wConfig wTrace wTm).1
            = Except.error (ProveError.recoverable "Opening point is in the subgroup.")
          ∧ TranscriptEvent.openPhase ∉ (prove (wEnv 1 []) wStark wConfig wTrace wTm).2)
      ∧ ((1 : ZMod 17) ^ 2 ^ 0 ≠ 1 →
          (prove (wEnv 1 []) wStark wConfig wTrace wTm).1
            = Except.ok
              { trace_cap := wTc.cap,
                openings := (wEnv 1 []).opening_set_new 1
                  ((wEnv 1 []).primitive_root_of_unity 0) wTc wQc,
                opening_proof := ((wEnv 1 []).prove_openings 1
                  ((wEnv 1 []).primitive_root_of_unity 0) wCh4).1 })) :=
  ⟨by decide, by decide, by decide, by decide, by decide, by decide,
   prove_zeta_rejection (wEnv 1 []) wStark wConfig wTrace wTm 0 wTc wQc [1] wCh2 wCh4 1
     [{ coeffs := [0] }] (by decide) (by decide) (by decide) (by decide) (by decide)
     (by decide)⟩

/-- Witness for the transcript-order theorem: `wEnv 2 []` hands out
`zeta = 2`, which passes the subgroup check, and the full event order is
observed. -/
theorem prove_transcript_order_witness :
    (log2_strict wTrace.length = some 0)
    ∧ ((wEnv 2 []).from_values ((List.transpose wTrace).map PolynomialValues.mk)
        wConfig.fri_config.rate_bits wConfig.fri_config.cap_height = some wTc)
    ∧ ((wEnv 2 []).get_n_challenges
        ((wEnv 2 []).observe_cap (wEnv 2 []).challenger_new wTc.cap)
        wConfig.num_challenges = ([1], wCh2))
    ∧ (all_quotient_chunks
        (compute_quotient_polys (wEnv 2 []) wStark wTc [1] 0 wConfig.fri_config.rate_bits)
        wTrace.length wConfig.fri_config.rate_bits = some [{ coeffs := [0] }])
    ∧ ((wEnv 2 []).from_coeffs [{ coeffs := [0] }] wConfig.fri_config.rate_bits
        wConfig.fri_config.cap_height = some wQc)
    ∧ ((wEnv 2 []).get_extension_challenge ((wEnv 2 []).observe_cap wCh2 wQc.cap)
        = (2, wCh4))
    ∧ ((2 : ZMod 17) ^ 2 ^ 0 ≠ 1)
    ∧ (prove (wEnv 2 []) wStark wConfig wTrace wTm).2
        = [TranscriptEvent.commit "trace", TranscriptEvent.observe "trace cap",
           TranscriptEvent.derive "alphas", TranscriptEvent.evalConstraints,
           TranscriptEvent.commit "quotient", TranscriptEvent.observe "quotient cap",
           TranscriptEvent.derive "zeta", TranscriptEvent.openPhase] :=
  ⟨by decide, by decide, by decide, by decide, by decide, by decide, by decide,
   prove_transcript_order (wEnv 2 []) wStark wConfig wTrace wTm 0 wTc wQc [1] wCh2 wCh4 2
     [{ coeffs := [0] }] (by decide) (by decide) (by decide) (by decide) (by decide)
     (by decide) (by decide)⟩

end Starky
